import Mathlib

/-!
Verification of the eRPC datapath/session core (src/src/rpc.h and
src/src/nexus_impl/nexus_bg_thread.cc) against its natural-language
specification. Machine integers are modelled as `Nat` (none of the checked
code paths overflow), pointers as `Option`/`Bool` validity flags, and the
pieces of the repository that are declared but not defined under src/
(the MsgBuffer constructor, the kick/CR/RFR processing, the timing-wheel
poll) are modelled from the spec where a claim needs them; each such
definition is marked `Modelled from the spec`.
-/

namespace ERpc

/-- Fields of the wire packet header `pkthdr_t` read by the client-side
in-order check (pkthdr.h is not under src/; only the fields used). -/
structure pkthdr_t where
  req_num : Nat
  pkt_num : Nat
  msg_size : Nat

/-- Client-side per-sslot protocol counters and wheel-membership bits
(`SSlot::client_info` fields read by `in_order_client`). `in_wheel` is the
bitset indexed by packet number mod kSessionCredits. -/
structure client_info_t where
  num_rx : Nat
  num_tx : Nat
  in_wheel : Nat → Bool
  wheel_count : Nat

/-- The part of an `SSlot` read by `in_order_client`. -/
structure SSlot where
  cur_req_num : Nat
  client_info : client_info_t

/-- The endpoint-wide loss statistics (`Rpc::pkt_loss_stats`). -/
structure pkt_loss_stats_t where
  num_re_tx : Nat
  still_in_wheel_during_retx : Nat

/-- src/src/rpc.h:340-358, `in_order_client(sslot, pkthdr)`.
Returns whether a packet received by a client is in order, together with
the updated `pkt_loss_stats` (the pacing branch increments
`still_in_wheel_during_retx` before returning false). `kCcPacing` and
`kSessionCredits` are the compile-time configuration constants. -/
def in_order_client (kCcPacing : Bool) (kSessionCredits : Nat)
    (stats : pkt_loss_stats_t) (sslot : SSlot) (pkthdr : pkthdr_t) :
    Bool × pkt_loss_stats_t :=
  if pkthdr.req_num ≠ sslot.cur_req_num then (false, stats)
  else
    let ci := sslot.client_info
    if pkthdr.pkt_num ≠ ci.num_rx then (false, stats)
    else if ci.num_tx ≤ pkthdr.pkt_num then (false, stats)
    else if kCcPacing && ci.in_wheel (pkthdr.pkt_num % kSessionCredits) then
      (false, { stats with
          still_in_wheel_during_retx := stats.still_in_wheel_during_retx + 1 })
    else (true, stats)

/-- src/src/rpc.h:754-757, `data_size_to_num_pkts(data_size)`. The number of
packets needed for `data_size` data bytes; avoids division when the data
fits in a single packet. `kMaxDataPerPkt` is the transport's per-packet
data capacity. -/
def data_size_to_num_pkts (kMaxDataPerPkt : Nat) (data_size : Nat) : Nat :=
  if data_size ≤ kMaxDataPerPkt then 1
  else (data_size + kMaxDataPerPkt - 1) / kMaxDataPerPkt

/-- The fault-injection knobs of `Rpc::faults` read by `can_bypass_wheel`. -/
structure faults_t where
  hard_wheel_bypass : Bool

/-- src/src/rpc.h:373-381, `can_bypass_wheel(sslot)`. The sslot is
represented by the two inputs the function reads: its wheel reference
count `wheel_count` and its session's congestion predicate
`is_uncongested()`. `kCcPacing`, `kTesting` and `kCcOptWheelBypass` are
the compile-time configuration constants. -/
def can_bypass_wheel (kCcPacing kTesting kCcOptWheelBypass : Bool)
    (faults : faults_t) (wheel_count : Nat) (uncongested : Bool) : Bool :=
  if !kCcPacing then true
  else if kTesting then faults.hard_wheel_bypass
  else if kCcOptWheelBypass then decide (wheel_count = 0) && uncongested
  else false

/-- The wheel-bypass rule in the words of the spec (section 4.3): bypass is
permitted when pacing is disabled, or when the session is uncongested and
no prior packet of this sslot is presently in the wheel. Stated for
comparison with `can_bypass_wheel`. -/
def can_bypass_wheel_claimed (kCcPacing : Bool) (wheel_count : Nat)
    (uncongested : Bool) : Bool :=
  !kCcPacing || (decide (wheel_count = 0) && uncongested)

/-- The MsgBuffer value, as visible to the claims: validity of the payload
pointer (`buf_null = true` models `buf == nullptr`), the maximum and
current data sizes, the packet count, and whether the zeroth inline packet
header has been magic-stamped. -/
structure MsgBuffer where
  buf_null : Bool
  max_data_size : Nat
  data_size : Nat
  num_pkts : Nat
  hdr_0_magic_set : Bool

/-- Modelled from the spec: the `MsgBuffer(Buffer, max_data_size,
max_num_pkts)` constructor of msg_buffer.h, which is not under src/.
Per spec section 4.1 the returned MsgBuffer is valid, its `num_pkts`
packet headers have been laid down with the zeroth header magic-stamped,
and its current data size starts at the maximum. -/
def MsgBuffer.of_alloc (max_data_size max_num_pkts : Nat) : MsgBuffer :=
  { buf_null := false
    max_data_size := max_data_size
    data_size := max_data_size
    num_pkts := max_num_pkts
    hdr_0_magic_set := true }

/-- The default-constructed MsgBuffer with `buf` nulled, returned by
`alloc_msg_buffer` when the hugepage allocator is out of memory
(src/src/rpc.h:100-104). -/
def MsgBuffer.invalid : MsgBuffer :=
  { buf_null := true
    max_data_size := 0
    data_size := 0
    num_pkts := 0
    hdr_0_magic_set := false }

/-- src/src/rpc.h:89-108, `alloc_msg_buffer(max_data_size)`. The hugepage
allocator is an external collaborator, modelled as a function from a
requested byte count to an optional buffer address (`none` models a null
`Buffer.buf`, i.e. out of memory). `pkthdr_size` is `sizeof(pkthdr_t)`.
The function never throws on exhaustion: it returns the invalid
MsgBuffer. -/
def alloc_msg_buffer (kMaxDataPerPkt pkthdr_size : Nat)
    (huge_alloc : Nat → Option Nat) (max_data_size : Nat) : MsgBuffer :=
  let max_num_pkts := data_size_to_num_pkts kMaxDataPerPkt max_data_size
  match huge_alloc (max_data_size + max_num_pkts * pkthdr_size) with
  | none => MsgBuffer.invalid
  | some _ => MsgBuffer.of_alloc max_data_size max_num_pkts

/-- The `assert(max_data_size > 0)` at src/src/rpc.h:90: the unstated
precondition of `alloc_msg_buffer` ("Doesn't work for max_data_size =
0"). -/
def alloc_msg_buffer_requires (max_data_size : Nat) : Prop :=
  0 < max_data_size

/-- src/src/rpc.h:119-127, `resize_msg_buffer(msg_buffer, new_data_size)`.
Shrinks the buffer, recomputing `num_pkts`, without touching the packet
headers. -/
def resize_msg_buffer (kMaxDataPerPkt : Nat) (msg_buffer : MsgBuffer)
    (new_data_size : Nat) : MsgBuffer :=
  { msg_buffer with
      data_size := new_data_size
      num_pkts := data_size_to_num_pkts kMaxDataPerPkt new_data_size }

/-- The asserts at src/src/rpc.h:121-122: `resize_msg_buffer` requires a
valid (non-null) MsgBuffer and a new size no larger than the maximum; a
new size of zero is explicitly allowed. -/
def resize_msg_buffer_requires (msg_buffer : MsgBuffer)
    (new_data_size : Nat) : Prop :=
  msg_buffer.buf_null = false ∧ new_data_size ≤ msg_buffer.max_data_size

/-- The arguments of a client `enqueue_request` call, as queued in a
session's enqueue backlog (`enq_req_args_t`; MsgBuffer pointers are
abstract identifiers). -/
structure enq_req_args_t where
  session_num : Nat
  req_type : Nat
  req_msgbuf : Nat
  resp_msgbuf : Nat
  cont_func : Nat
  tag : Nat
  cont_etid : Nat
deriving DecidableEq

/-- The parts of `Session::client_info` mutated by `release_response`:
the free-sslot index stack (`sslot_free_vec`, a push_back vector) and the
enqueue backlog (`enq_req_backlog`, a FIFO queue whose head is the
oldest entry). -/
structure release_client_info where
  sslot_free_vec : List Nat
  enq_req_backlog : List enq_req_args_t

/-- src/src/rpc.h:461-485, `release_response(resp_handle)`, dispatch-thread
path. Pushes the released sslot's index back onto the session's free-slot
stack; then, if the enqueue backlog is non-empty, re-issues its front
entry via `enqueue_request` and pops it. Returns the new session state
together with the backlog entry passed to `enqueue_request`, if any. -/
def release_response (ci : release_client_info) (sslot_index : Nat) :
    release_client_info × Option enq_req_args_t :=
  let ci1 : release_client_info :=
    { ci with sslot_free_vec := ci.sslot_free_vec ++ [sslot_index] }
  match ci1.enq_req_backlog with
  | [] => (ci1, none)
  | args :: rest =>
      ({ ci1 with enq_req_backlog := rest }, some args)

/-- Repeated `release_response` calls: releases the given sslot indices in
order, collecting the backlog entries handed to `enqueue_request`. -/
def release_many (ci : release_client_info) : List Nat →
    release_client_info × List enq_req_args_t
  | [] => (ci, [])
  | idx :: rest =>
      let step := release_response ci idx
      let r := release_many step.1 rest
      (r.1, step.2.toList ++ r.2)

/-- One endpoint descriptor inside a `SessionMgmtPkt` (client or server
side): hostname (abstract identifier), application thread id, and session
number. -/
structure sm_endpoint_t where
  hostname : Nat
  app_tid : Nat
  session_num : Nat
deriving DecidableEq

/-- The client/server pair carried by a connect-request `SessionMgmtPkt`,
and also the pair stored in each allocated `Session`. -/
structure sm_session_t where
  client : sm_endpoint_t
  server : sm_endpoint_t
deriving DecidableEq

/-- C `strcmp(a, b)` used as a boolean: nonzero (truthy) exactly when the
two strings differ. -/
def strcmp_nonzero (a b : Nat) : Bool := decide (a ≠ b)

/-- src/src/rpc.h:1075-1109 (the appended rpc.cc),
`handle_session_connect_req(pkt)`. The handler scans `session_vec` for an
entry whose condition `strcmp(existing.client.hostname,
pkt.client.hostname) && existing.client.app_tid == pkt.client.app_tid`
holds and returns early if found (sending nothing; the exists-response is
an XXX comment). Otherwise it allocates a fresh `Session`, copies the
packet's client and server fields into it, and returns without
registering it or replying. Result: the session allocated by this call
(if any) paired with the session-management response sent (always none
in this code). -/
def handle_session_connect_req (session_vec : List sm_session_t)
    (pkt : sm_session_t) : Option sm_session_t × Option sm_session_t :=
  if session_vec.any (fun es =>
      strcmp_nonzero es.client.hostname pkt.client.hostname &&
      decide (es.client.app_tid = pkt.client.app_tid)) then
    (none, none)
  else
    (some { client := pkt.client, server := pkt.server }, none)

/-- src/src/rpc.h:40-42, `Rpc::kMaxMsgSize`: the hugepage allocator's
maximum class size minus one packet header per packet of that size. -/
def kMaxMsgSize (kMaxClassSize kMaxDataPerPkt pkthdr_size : Nat) : Nat :=
  kMaxClassSize - (kMaxClassSize / kMaxDataPerPkt) * pkthdr_size

/-- src/src/rpc.h:643-647, `bump_credits(session)`: increments the
session's credit count by one. -/
def bump_credits (credits : Nat) : Nat := credits + 1

/-- The `assert(session->client_info.credits < kSessionCredits)` at
src/src/rpc.h:645: `bump_credits` is only invoked below the credit
limit. -/
def bump_credits_requires (kSessionCredits credits : Nat) : Prop :=
  credits < kSessionCredits

/-- The per-sslot counters entering the credit-conservation invariant:
packets emitted (`num_tx`), in-order packets received (`num_rx`), and
explicit credit returns received for the current request. -/
structure credit_slot_t where
  num_tx : Nat
  num_rx : Nat
  expl_cr : Nat

/-- A client session's credit state: the available-credit counter plus the
counters of its `n` sslots. -/
structure credit_session_t (n : Nat) where
  credits : Nat
  slots : Fin n → credit_slot_t

/-- The packets of one sslot that are on the wire and not yet paid for by
a response packet or an explicit CR. -/
def slot_outstanding (c : credit_slot_t) : Nat :=
  c.num_tx - (c.num_rx + c.expl_cr)

/-- `outstanding_packets(s)`: sum over the session's sslots of
`num_tx - num_rx - explicit_CRs_received`. -/
def outstanding_packets {n : Nat} (s : credit_session_t n) : Nat :=
  ∑ i, slot_outstanding (s.slots i)

/-- A fresh client session: K credits, all sslot counters zero. -/
def init_credit_session (K n : Nat) : credit_session_t n :=
  { credits := K, slots := fun _ => ⟨0, 0, 0⟩ }

/-- Modelled from the spec: the datapath transitions that touch a client
session's credits and sslot counters. The code for these (rpc_kick.cc,
rpc_cr.cc, rpc_resp.cc, rpc_req.cc) is not under src/; the transitions
follow spec sections 4.3-4.5: `send` consumes one credit per emitted
packet (request or RFR); `recv_cr` receives an explicit CR for an
outstanding packet, returning one credit via `bump_credits`; `recv_resp`
receives an in-order response packet for an outstanding packet, returning
one credit; `reset_slot` recycles a finished sslot (all emitted packets
accounted for) for a new request, zeroing its counters. -/
inductive credit_step (K : Nat) {n : Nat} :
    credit_session_t n → credit_session_t n → Prop
  | send (s : credit_session_t n) (i : Fin n) (h : 0 < s.credits) :
      credit_step K s
        { credits := s.credits - 1
          slots := Function.update s.slots i
            { s.slots i with num_tx := (s.slots i).num_tx + 1 } }
  | recv_cr (s : credit_session_t n) (i : Fin n)
      (h : (s.slots i).num_rx + (s.slots i).expl_cr < (s.slots i).num_tx) :
      credit_step K s
        { credits := bump_credits s.credits
          slots := Function.update s.slots i
            { s.slots i with expl_cr := (s.slots i).expl_cr + 1 } }
  | recv_resp (s : credit_session_t n) (i : Fin n)
      (h : (s.slots i).num_rx + (s.slots i).expl_cr < (s.slots i).num_tx) :
      credit_step K s
        { credits := bump_credits s.credits
          slots := Function.update s.slots i
            { s.slots i with num_rx := (s.slots i).num_rx + 1 } }
  | reset_slot (s : credit_session_t n) (i : Fin n)
      (h : (s.slots i).num_tx = (s.slots i).num_rx + (s.slots i).expl_cr) :
      credit_step K s
        { credits := s.credits
          slots := Function.update s.slots i ⟨0, 0, 0⟩ }

/-- The states of a client session reachable from a fresh session by
datapath steps. -/
inductive credit_reachable (K n : Nat) : credit_session_t n → Prop
  | init : credit_reachable K n (init_credit_session K n)
  | step {s t : credit_session_t n} : credit_reachable K n s →
      credit_step K s t → credit_reachable K n t

/-- The sslot fields mutated by the wheel-enqueue helpers: the `in_wheel`
bitset (indexed by packet number mod kSessionCredits) and the
`wheel_count` reference count. -/
structure wheel_client_info where
  in_wheel : Nat → Bool
  wheel_count : Nat

/-- src/src/rpc.h:581-594, `enqueue_wheel_req_st(sslot, pkt_num)`,
restricted to the sslot state it mutates: after `wheel->insert`, it sets
`in_wheel[pkt_num % kSessionCredits] = true` and increments
`wheel_count`. -/
def enqueue_wheel_req_st (kSessionCredits : Nat) (ci : wheel_client_info)
    (pkt_num : Nat) : wheel_client_info :=
  { in_wheel := fun i =>
      if i = pkt_num % kSessionCredits then true else ci.in_wheel i
    wheel_count := ci.wheel_count + 1 }

/-- src/src/rpc.h:597-611, `enqueue_wheel_rfr_st(sslot, pkt_num)`. The two
wheel-enqueue helpers differ only in the packet-size computation used for
the wheel timestamp; their effect on the sslot is identical. -/
def enqueue_wheel_rfr_st (kSessionCredits : Nat) (ci : wheel_client_info)
    (pkt_num : Nat) : wheel_client_info :=
  { in_wheel := fun i =>
      if i = pkt_num % kSessionCredits then true else ci.in_wheel i
    wheel_count := ci.wheel_count + 1 }

/-- One sslot's view of the timing wheel: the pending wheel entries for
this sslot hold the packet numbers `[pend_base, pend_next)`; `ci` is the
sslot's bitset and reference count. -/
structure wheel_state_t where
  pend_base : Nat
  pend_next : Nat
  ci : wheel_client_info

/-- The packet numbers of this sslot's pending wheel entries. -/
def wheel_pending (s : wheel_state_t) : List Nat :=
  List.range' s.pend_base (s.pend_next - s.pend_base)

/-- A fresh sslot: no pending wheel entries, all bits clear. -/
def init_wheel_state : wheel_state_t :=
  { pend_base := 0, pend_next := 0
    ci := { in_wheel := fun _ => false, wheel_count := 0 } }

/-- Modelled from the spec: the transitions that touch one sslot's wheel
membership. The wheel-consuming code (rpc_kick.cc, rpc_queues.cc
`process_wheel_st`, rpc_pkt_loss.cc) is not under src/; the transitions
follow spec sections 4.3 and 4.6: packets of one sslot are wheeled in
increasing packet-number order, each wheel entry holds a consumed credit
so at most kSessionCredits entries of one sslot are pending (`insert_req`
and `insert_rfr`, which apply the rpc.h enqueue helpers); the wheel poll
dequeues this sslot's entries in wheel-timestamp (hence insertion) order,
clearing the in-wheel bit (`transmit`); a loss-recovery rollback drops
all of this sslot's pending entries and clears their in-wheel bits
(`rollback`). -/
inductive wheel_step (K : Nat) : wheel_state_t → wheel_state_t → Prop
  | insert_req (s : wheel_state_t) (hb : s.pend_base ≤ s.pend_next)
      (h : s.pend_next - s.pend_base < K) :
      wheel_step K s
        { pend_base := s.pend_base
          pend_next := s.pend_next + 1
          ci := enqueue_wheel_req_st K s.ci s.pend_next }
  | insert_rfr (s : wheel_state_t) (hb : s.pend_base ≤ s.pend_next)
      (h : s.pend_next - s.pend_base < K) :
      wheel_step K s
        { pend_base := s.pend_base
          pend_next := s.pend_next + 1
          ci := enqueue_wheel_rfr_st K s.ci s.pend_next }
  | transmit (s : wheel_state_t) (h : s.pend_base < s.pend_next) :
      wheel_step K s
        { pend_base := s.pend_base + 1
          pend_next := s.pend_next
          ci := { in_wheel := fun i =>
                    if i = s.pend_base % K then false else s.ci.in_wheel i
                  wheel_count := s.ci.wheel_count - 1 } }
  | rollback (s : wheel_state_t) :
      wheel_step K s
        { pend_base := s.pend_next
          pend_next := s.pend_next
          ci := { in_wheel := fun i =>
                    if (wheel_pending s).any (fun p => decide (p % K = i))
                    then false else s.ci.in_wheel i
                  wheel_count := 0 } }

/-- The sslot wheel states reachable from a fresh sslot. -/
inductive wheel_reachable (K : Nat) : wheel_state_t → Prop
  | init : wheel_reachable K init_wheel_state
  | step {s t : wheel_state_t} : wheel_reachable K s →
      wheel_step K s t → wheel_reachable K t

/-- C1: `in_order_client` accepts a packet exactly when the request numbers
match, the packet number equals `num_rx`, the packet number is below
`num_tx`, and, under pacing, the packet's wheel bit is clear; any failing
condition yields false, and exactly the pacing failure increments
`still_in_wheel_during_retx` (while `num_re_tx` is untouched). -/
theorem in_order_client_characterization (kCcPacing : Bool) (K : Nat)
    (stats : pkt_loss_stats_t) (sslot : SSlot) (pkthdr : pkthdr_t) :
    ((in_order_client kCcPacing K stats sslot pkthdr).1 = true ↔
      (pkthdr.req_num = sslot.cur_req_num ∧
       pkthdr.pkt_num = sslot.client_info.num_rx ∧
       pkthdr.pkt_num < sslot.client_info.num_tx ∧
       (kCcPacing = true →
         sslot.client_info.in_wheel (pkthdr.pkt_num % K) = false))) ∧
    (in_order_client kCcPacing K stats sslot
        pkthdr).2.still_in_wheel_during_retx =
      stats.still_in_wheel_during_retx +
        (if pkthdr.req_num = sslot.cur_req_num ∧
            pkthdr.pkt_num = sslot.client_info.num_rx ∧
            pkthdr.pkt_num < sslot.client_info.num_tx ∧
            kCcPacing = true ∧
            sslot.client_info.in_wheel (pkthdr.pkt_num % K) = true
         then 1 else 0) ∧
    (in_order_client kCcPacing K stats sslot pkthdr).2.num_re_tx =
      stats.num_re_tx := by
  rcases sslot with ⟨crn, nrx, ntx, iw, wc⟩
  rcases pkthdr with ⟨rn, pn, ms⟩
  by_cases e1 : rn = crn
  · subst e1
    by_cases e2 : pn = nrx
    · subst e2
      by_cases e3 : ntx ≤ pn
      · have e3' : ¬ pn < ntx := not_lt.mpr e3
        simp [in_order_client, e3, e3']
      · have e3' : pn < ntx := not_le.mp e3
        cases kCcPacing
        · simp [in_order_client, e3, e3']
        · by_cases e4 : iw (pn % K) = true
          · simp [in_order_client, e3, e3', e4]
          · simp [in_order_client, e3, e3', e4]
    · simp [in_order_client, e2]
  · simp [in_order_client, e1]

/-- C3: `data_size_to_num_pkts` computes the ceiling of `data_size /
kMaxDataPerPkt` with a floor of 1 (so it is 1 for all sizes up to and
including `kMaxDataPerPkt`), and this value is the `num_pkts` installed
by `alloc_msg_buffer` and `resize_msg_buffer`. -/
theorem data_size_to_num_pkts_spec (k h d : Nat) (hk : 0 < k)
    (f : Nat → Option Nat) :
    data_size_to_num_pkts k d = max 1 ((d + k - 1) / k) ∧
    (d ≤ k → data_size_to_num_pkts k d = 1) ∧
    (∀ ptr, f (d + data_size_to_num_pkts k d * h) = some ptr →
      (alloc_msg_buffer k h f d).num_pkts = data_size_to_num_pkts k d) ∧
    (∀ m : MsgBuffer,
      (resize_msg_buffer k m d).num_pkts = data_size_to_num_pkts k d) := by
  refine ⟨?_, ?_, ?_, ?_⟩
  · by_cases hd : d ≤ k
    · have hlt : (d + k - 1) / k < 2 := by
        rw [Nat.div_lt_iff_lt_mul hk]
        omega
      rw [data_size_to_num_pkts, if_pos hd, Nat.max_eq_left (by omega)]
    · have hge : 1 ≤ (d + k - 1) / k := by
        rw [Nat.le_div_iff_mul_le hk]
        omega
      rw [data_size_to_num_pkts, if_neg hd, Nat.max_eq_right hge]
  · intro hd
    rw [data_size_to_num_pkts, if_pos hd]
  · intro ptr hptr
    simp [alloc_msg_buffer, hptr, MsgBuffer.of_alloc]
  · intro m
    simp [resize_msg_buffer]

/-- Witness for C3 at kMaxDataPerPkt = 8, data_size = 20. -/
theorem data_size_to_num_pkts_spec_witness :
    data_size_to_num_pkts 8 20 = max 1 ((20 + 8 - 1) / 8) :=
  (data_size_to_num_pkts_spec 8 16 20 (by decide) (fun _ => some 0)).1

/-- C4 counterexample: in a testing build with pacing enabled and the
hard-wheel-bypass fault set, `can_bypass_wheel` returns true although a
packet of the sslot is in the wheel and the session is congested, so the
claimed "true exactly when pacing is disabled, or uncongested and
wheel_count = 0" characterization fails. -/
theorem can_bypass_wheel_claim_false :
    can_bypass_wheel true true true ⟨true⟩ 1 false = true ∧
    can_bypass_wheel_claimed true 1 false = false := by
  decide

/-- C4 amended: `can_bypass_wheel` returns true exactly when pacing is
disabled; or the build is a testing build and the hard-wheel-bypass fault
is set; or the build is a non-testing build with the wheel-bypass
optimization compiled in, no packet of the sslot is in the wheel, and the
session is uncongested. -/
theorem can_bypass_wheel_characterization (p t o : Bool) (f : faults_t)
    (w : Nat) (u : Bool) :
    can_bypass_wheel p t o f w u = true ↔
      (p = false ∨
       (t = true ∧ f.hard_wheel_bypass = true) ∨
       (t = false ∧ o = true ∧ w = 0 ∧ u = true)) := by
  obtain ⟨hb⟩ := f
  cases p <;> cases t <;> cases o <;> cases hb <;> cases u <;>
    simp [can_bypass_wheel]

/-- C5: when the hugepage allocator returns no memory, `alloc_msg_buffer`
returns the invalid MsgBuffer (null `buf`) without failing; otherwise it
returns a valid MsgBuffer sized for `max_data_size` bytes plus one packet
header per packet, with the zeroth header magic-stamped. -/
theorem alloc_msg_buffer_error_handling (k h : Nat) (f : Nat → Option Nat)
    (d : Nat) :
    (f (d + data_size_to_num_pkts k d * h) = none →
      alloc_msg_buffer k h f d = MsgBuffer.invalid ∧
      (alloc_msg_buffer k h f d).buf_null = true) ∧
    (∀ ptr, f (d + data_size_to_num_pkts k d * h) = some ptr →
      alloc_msg_buffer k h f d =
        MsgBuffer.of_alloc d (data_size_to_num_pkts k d) ∧
      (alloc_msg_buffer k h f d).buf_null = false ∧
      (alloc_msg_buffer k h f d).hdr_0_magic_set = true ∧
      (alloc_msg_buffer k h f d).max_data_size = d ∧
      (alloc_msg_buffer k h f d).num_pkts = data_size_to_num_pkts k d) := by
  constructor
  · intro hnone
    simp [alloc_msg_buffer, hnone, MsgBuffer.invalid]
  · intro ptr hptr
    simp [alloc_msg_buffer, hptr, MsgBuffer.of_alloc]

/-- Witness for C5: an exhausted allocator yields the invalid MsgBuffer. -/
theorem alloc_msg_buffer_error_handling_witness :
    alloc_msg_buffer 8 16 (fun _ => none) 4 = MsgBuffer.invalid ∧
    (alloc_msg_buffer 8 16 (fun _ => none) 4).buf_null = true :=
  (alloc_msg_buffer_error_handling 8 16 (fun _ => none) 4).1 rfl

/-- C6 (code bug): on receiving a connect request identical to one already
seen (first conjunct), the handler fails to detect the duplicate — its
`strcmp(...) && app_tid == ...` condition is truthy only when the
hostnames differ — so it allocates a brand-new session and sends no
response, instead of re-sending the cached connect response without
allocating; conversely a first-seen request from a different host with a
matching app_tid is wrongly swallowed as a duplicate, with no session
allocated and no reply (second conjunct). -/
theorem handle_session_connect_req_duplicate_behavior :
    handle_session_connect_req
        [{ client := ⟨1, 2, 3⟩, server := ⟨9, 0, 5⟩ }]
        { client := ⟨1, 2, 3⟩, server := ⟨9, 0, 5⟩ } =
      (some { client := ⟨1, 2, 3⟩, server := ⟨9, 0, 5⟩ }, none) ∧
    handle_session_connect_req
        [{ client := ⟨1, 2, 3⟩, server := ⟨9, 0, 5⟩ }]
        { client := ⟨4, 2, 7⟩, server := ⟨9, 0, 5⟩ } =
      ((none : Option sm_session_t), (none : Option sm_session_t)) := by
  decide

/-- C8: the packet-header bit widths cannot alias packet numbers within one
RPC: whenever the transport's packet capacity covers twice the
allocator's maximum class size (as the compiled transports do), it also
covers twice `kMaxMsgSize`, and a message-size field that can hold
`kMaxClassSize` can hold `kMaxMsgSize`, because subtracting the per-packet
header overhead only shrinks the maximum message size. These are exactly
the two static_asserts of src/src/rpc.h:43-46. -/
theorem pkt_num_no_alias (M d h pktNumBits msgSizeBits : Nat)
    (h1 : 2 * M < 2 ^ pktNumBits * d) (h2 : M ≤ 2 ^ msgSizeBits) :
    2 * kMaxMsgSize M d h < 2 ^ pktNumBits * d ∧
    kMaxMsgSize M d h ≤ 2 ^ msgSizeBits := by
  have hle : kMaxMsgSize M d h ≤ M := Nat.sub_le _ _
  omega

/-- Witness for C8 at the InfiniBand transport's constants: an 8 MB
allocator class, 3824 data bytes per packet, 16-byte packet headers,
13 packet-number bits and 24 message-size bits. -/
theorem pkt_num_no_alias_witness :
    2 * kMaxMsgSize 8388608 3824 16 < 2 ^ 13 * 3824 ∧
    kMaxMsgSize 8388608 3824 16 ≤ 2 ^ 24 :=
  pkt_num_no_alias 8388608 3824 16 13 24 (by norm_num) (by norm_num)

/-- C10: `alloc_msg_buffer` has the asserted precondition
`max_data_size > 0`, while `resize_msg_buffer` accepts shrinking any valid
MsgBuffer to data size 0 and `data_size_to_num_pkts 0 = 1`; a zero-byte
payload is obtained by allocating at least one byte and resizing down,
which yields a valid buffer of data size 0. -/
theorem alloc_zero_size_precondition (k h : Nat) (f : Nat → Option Nat) :
    ¬ alloc_msg_buffer_requires 0 ∧
    alloc_msg_buffer_requires 1 ∧
    data_size_to_num_pkts k 0 = 1 ∧
    (∀ m : MsgBuffer, m.buf_null = false → resize_msg_buffer_requires m 0) ∧
    (∀ ptr, f (1 + data_size_to_num_pkts k 1 * h) = some ptr →
      resize_msg_buffer_requires (alloc_msg_buffer k h f 1) 0 ∧
      (resize_msg_buffer k (alloc_msg_buffer k h f 1) 0).data_size = 0 ∧
      (resize_msg_buffer k (alloc_msg_buffer k h f 1) 0).buf_null = false) := by
  refine ⟨?_, ?_, ?_, ?_, ?_⟩
  · simp [alloc_msg_buffer_requires]
  · simp [alloc_msg_buffer_requires]
  · simp [data_size_to_num_pkts]
  · intro m hm
    exact ⟨hm, Nat.zero_le _⟩
  · intro ptr hptr
    refine ⟨⟨?_, ?_⟩, ?_, ?_⟩ <;>
      simp [alloc_msg_buffer, hptr, MsgBuffer.of_alloc, resize_msg_buffer]

/-- Witness for C10: allocating one byte and resizing to zero yields a
valid zero-size MsgBuffer. -/
theorem alloc_zero_size_precondition_witness :
    (resize_msg_buffer 8 (alloc_msg_buffer 8 16 (fun _ => some 0) 1)
        0).data_size = 0 :=
  ((alloc_zero_size_precondition 8 16 (fun _ => some 0)).2.2.2.2 0
    rfl).2.1

/-- The backlog entries handed to `enqueue_request` by a sequence of
`release_response` calls are exactly an initial segment of the backlog,
in backlog order. -/
theorem release_many_take (idxs : List Nat) (ci : release_client_info) :
    (release_many ci idxs).2 = ci.enq_req_backlog.take idxs.length := by
  induction idxs generalizing ci with
  | nil => simp [release_many]
  | cons idx rest ih =>
      cases hb : ci.enq_req_backlog with
      | nil =>
          simp [release_many, release_response, hb, ih]
      | cons a bs =>
          simp [release_many, release_response, hb, ih]

/-- C9: `release_response` in the dispatch thread pushes the released
sslot's index onto the session's free-slot stack; it removes exactly the
oldest backlog entry (the head, if any) and hands it to
`enqueue_request`; and over any sequence of releases the re-issued
entries are the backlog's initial segment in order — strictly FIFO. -/
theorem release_response_fifo (ci : release_client_info) (idx : Nat)
    (idxs : List Nat) :
    (release_response ci idx).1.sslot_free_vec =
      ci.sslot_free_vec ++ [idx] ∧
    (release_response ci idx).2 = ci.enq_req_backlog.head? ∧
    (release_response ci idx).1.enq_req_backlog =
      ci.enq_req_backlog.tail ∧
    (release_many ci idxs).2 = ci.enq_req_backlog.take idxs.length := by
  refine ⟨?_, ?_, ?_, release_many_take idxs ci⟩ <;>
    cases hb : ci.enq_req_backlog <;>
    simp [release_response, hb]

/-- Updating one summand of a finite Nat-valued sum. -/
theorem sum_update_nat {n : Nat} (f : Fin n → Nat) (i : Fin n) (b : Nat) :
    (∑ j, Function.update f i b j) + f i = (∑ j, f j) + b := by
  rw [Finset.sum_update_of_mem (Finset.mem_univ i),
    ← Finset.sum_erase_add Finset.univ f (Finset.mem_univ i),
    Finset.erase_eq]
  omega

/-- Updating one sslot's counters changes the outstanding-packet sum by
that sslot's contribution. -/
theorem sum_slot_update {n : Nat} (f : Fin n → credit_slot_t) (i : Fin n)
    (b : credit_slot_t) :
    (∑ j, slot_outstanding (Function.update f i b j)) +
      slot_outstanding (f i) =
    (∑ j, slot_outstanding (f j)) + slot_outstanding b := by
  have hcomp : (fun j => slot_outstanding (Function.update f i b j)) =
      Function.update (fun j => slot_outstanding (f j)) i
        (slot_outstanding b) := by
    funext j
    exact Function.apply_update (fun _ c => slot_outstanding c) f i b j
  calc (∑ j, slot_outstanding (Function.update f i b j)) +
      slot_outstanding (f i)
      = (∑ j, Function.update (fun j => slot_outstanding (f j)) i
          (slot_outstanding b) j) + slot_outstanding (f i) := by
        rw [hcomp]
    _ = (∑ j, slot_outstanding (f j)) + slot_outstanding b :=
        sum_update_nat (fun j => slot_outstanding (f j)) i
          (slot_outstanding b)

/-- The credit invariant is preserved by every datapath step. -/
theorem credit_inv_preserved (K : Nat) {n : Nat}
    {s t : credit_session_t n}
    (hsum : s.credits + outstanding_packets s = K)
    (hslots : ∀ j, (s.slots j).num_rx + (s.slots j).expl_cr ≤
      (s.slots j).num_tx)
    (hstep : credit_step K s t) :
    t.credits + outstanding_packets t = K ∧
    ∀ j, (t.slots j).num_rx + (t.slots j).expl_cr ≤ (t.slots j).num_tx := by
  cases hstep with
  | send i hcred =>
      have hi := hslots i
      have key := sum_slot_update s.slots i
        { num_tx := (s.slots i).num_tx + 1, num_rx := (s.slots i).num_rx,
          expl_cr := (s.slots i).expl_cr }
      have hb : slot_outstanding
          { num_tx := (s.slots i).num_tx + 1, num_rx := (s.slots i).num_rx,
            expl_cr := (s.slots i).expl_cr } =
          slot_outstanding (s.slots i) + 1 := by
        simp only [slot_outstanding]
        omega
      constructor
      · simp only [outstanding_packets] at hsum ⊢
        omega
      · intro j
        by_cases hj : j = i
        · subst hj
          simp only [Function.update_same]
          have := hslots j
          omega
        · simp only [Function.update_noteq hj]
          exact hslots j
  | recv_cr i hout =>
      have hi := hslots i
      have key := sum_slot_update s.slots i
        { num_tx := (s.slots i).num_tx, num_rx := (s.slots i).num_rx,
          expl_cr := (s.slots i).expl_cr + 1 }
      have hb : slot_outstanding
          { num_tx := (s.slots i).num_tx, num_rx := (s.slots i).num_rx,
            expl_cr := (s.slots i).expl_cr + 1 } + 1 =
          slot_outstanding (s.slots i) := by
        simp only [slot_outstanding]
        omega
      constructor
      · simp only [outstanding_packets, bump_credits] at hsum ⊢
        omega
      · intro j
        by_cases hj : j = i
        · subst hj
          simp only [Function.update_same]
          omega
        · simp only [Function.update_noteq hj]
          exact hslots j
  | recv_resp i hout =>
      have hi := hslots i
      have key := sum_slot_update s.slots i
        { num_tx := (s.slots i).num_tx, num_rx := (s.slots i).num_rx + 1,
          expl_cr := (s.slots i).expl_cr }
      have hb : slot_outstanding
          { num_tx := (s.slots i).num_tx, num_rx := (s.slots i).num_rx + 1,
            expl_cr := (s.slots i).expl_cr } + 1 =
          slot_outstanding (s.slots i) := by
        simp only [slot_outstanding]
        omega
      constructor
      · simp only [outstanding_packets, bump_credits] at hsum ⊢
        omega
      · intro j
        by_cases hj : j = i
        · subst hj
          simp only [Function.update_same]
          omega
        · simp only [Function.update_noteq hj]
          exact hslots j
  | reset_slot i hdone =>
      have hi := hslots i
      have key := sum_slot_update s.slots i ⟨0, 0, 0⟩
      have hb : slot_outstanding (s.slots i) = 0 := by
        simp only [slot_outstanding]
        omega
      have hb0 : slot_outstanding ⟨0, 0, 0⟩ = 0 := rfl
      constructor
      · simp only [outstanding_packets] at hsum ⊢
        omega
      · intro j
        by_cases hj : j = i
        · subst hj
          simp only [Function.update_same]
          omega
        · simp only [Function.update_noteq hj]
          exact hslots j

/-- Every reachable client-session state satisfies the credit equation and
the per-sslot counter ordering. -/
theorem credit_reachable_inv (K n : Nat) (s : credit_session_t n)
    (h : credit_reachable K n s) :
    s.credits + outstanding_packets s = K ∧
    ∀ j, (s.slots j).num_rx + (s.slots j).expl_cr ≤ (s.slots j).num_tx := by
  induction h with
  | init =>
      constructor
      · simp [init_credit_session, outstanding_packets, slot_outstanding]
      · intro j
        simp [init_credit_session]
  | step _ hstep ih => exact credit_inv_preserved K ih.1 ih.2 hstep

/-- C2: in every reachable state of a client session,
`credits + outstanding_packets = K` (outstanding being the sum over
sslots of `num_tx - num_rx - explicit_CRs_received`); in particular
credits never exceed K; whenever a CR or in-order response packet can
arrive (some packet of some sslot is outstanding), `bump_credits`'s
asserted precondition `credits < K` holds; and `bump_credits` increments
by exactly one. -/
theorem credit_invariant (K n : Nat) (s : credit_session_t n)
    (hreach : credit_reachable K n s) :
    s.credits + outstanding_packets s = K ∧
    s.credits ≤ K ∧
    (∀ i : Fin n,
      (s.slots i).num_rx + (s.slots i).expl_cr < (s.slots i).num_tx →
      bump_credits_requires K s.credits) ∧
    (∀ c : Nat, bump_credits c = c + 1) := by
  obtain ⟨hsum, hslots⟩ := credit_reachable_inv K n s hreach
  refine ⟨hsum, by omega, ?_, fun c => rfl⟩
  intro i hi
  have h1 : 1 ≤ slot_outstanding (s.slots i) := by
    simp only [slot_outstanding]
    omega
  have h2 : slot_outstanding (s.slots i) ≤ outstanding_packets s := by
    unfold outstanding_packets
    exact Finset.single_le_sum (f := fun j => slot_outstanding (s.slots j))
      (fun j _ => Nat.zero_le _) (Finset.mem_univ i)
  show s.credits < K
  omega

/-- Witness for C2 at the fresh state of a session with K = 8 and two
sslots. -/
theorem credit_invariant_witness :
    (init_credit_session 8 2).credits +
      outstanding_packets (init_credit_session 8 2) = 8 ∧
    (init_credit_session 8 2).credits ≤ 8 := by
  have h := credit_invariant 8 2 (init_credit_session 8 2)
    credit_reachable.init
  exact ⟨h.1, h.2.1⟩

theorem mod_eq_inj_of_lt (K p q : Nat) (hle : p ≤ q) (hlt : q - p < K)
    (hm : p % K = q % K) : p = q := by
  have hd : K ∣ q - p := (Nat.modEq_iff_dvd' hle).mp hm
  have h0 := Nat.eq_zero_of_dvd_of_lt hd
  omega

theorem cnt_top_zero (K a n q : Nat) (hn : n < K) (hq : q = a + n) :
    (List.range' a n).countP (fun p => decide (p % K = q % K)) = 0 := by
  rw [List.countP_eq_zero]
  intro p hp
  rw [List.mem_range'_1] at hp
  simp only [decide_eq_true_eq]
  intro hm
  have := mod_eq_inj_of_lt K p q (by omega) (by omega) hm
  omega

theorem cnt_bot_zero (K a n : Nat) (hn : n < K) :
    (List.range' (a + 1) n).countP (fun p => decide (p % K = a % K)) = 0 := by
  rw [List.countP_eq_zero]
  intro p hp
  rw [List.mem_range'_1] at hp
  simp only [decide_eq_true_eq]
  intro hm
  have := mod_eq_inj_of_lt K a p (by omega) (by omega) hm.symm
  omega

theorem range_insert_split (a b : Nat) (hab : a ≤ b) :
    List.range' a (b + 1 - a) = List.range' a (b - a) ++ [b] := by
  rw [show b + 1 - a = (b - a) + 1 from by omega, List.range'_concat, one_mul,
    show a + (b - a) = b from by omega]

theorem range_head_split (a b : Nat) (hab : a < b) :
    List.range' a (b - a) = a :: List.range' (a + 1) (b - (a + 1)) := by
  rw [show b - a = (b - (a + 1)) + 1 from by omega, List.range'_succ]

theorem wheel_insert_iff (K : Nat) (s0 : wheel_state_t)
    (iha : s0.pend_base ≤ s0.pend_next)
    (hlt : s0.pend_next - s0.pend_base < K)
    (ihd : ∀ i, s0.ci.in_wheel i = true ↔
      (wheel_pending s0).countP (fun p => decide (p % K = i)) = 1)
    (i : Nat) :
    ((if i = s0.pend_next % K then true else s0.ci.in_wheel i) = true ↔
      (List.range' s0.pend_base (s0.pend_next + 1 - s0.pend_base)).countP
        (fun p => decide (p % K = i)) = 1) := by
  rw [range_insert_split _ _ iha, List.countP_append]
  by_cases hi : i = s0.pend_next % K
  · subst hi
    have h0 : (List.range' s0.pend_base
        (s0.pend_next - s0.pend_base)).countP
        (fun p => decide (p % K = s0.pend_next % K)) = 0 :=
      cnt_top_zero K s0.pend_base (s0.pend_next - s0.pend_base) s0.pend_next
        hlt (by omega)
    simp [h0, List.countP_cons]
  · have hi2 : ¬ s0.pend_next % K = i := fun hh => hi hh.symm
    have hd := ihd i
    rw [if_neg hi, hd]
    simp only [wheel_pending]
    simp [List.countP_cons, hi2]

theorem wheel_transmit_iff (K : Nat) (s0 : wheel_state_t)
    (hlt : s0.pend_base < s0.pend_next)
    (ihb : s0.pend_next - s0.pend_base ≤ K)
    (ihd : ∀ i, s0.ci.in_wheel i = true ↔
      (wheel_pending s0).countP (fun p => decide (p % K = i)) = 1)
    (i : Nat) :
    ((if i = s0.pend_base % K then false else s0.ci.in_wheel i) = true ↔
      (List.range' (s0.pend_base + 1)
        (s0.pend_next - (s0.pend_base + 1))).countP
        (fun p => decide (p % K = i)) = 1) := by
  by_cases hi : i = s0.pend_base % K
  · subst hi
    have h0 := cnt_bot_zero K s0.pend_base
      (s0.pend_next - (s0.pend_base + 1)) (by omega)
    simp [h0]
  · have hi2 : ¬ s0.pend_base % K = i := fun hh => hi hh.symm
    have hd := ihd i
    rw [if_neg hi, hd]
    simp only [wheel_pending]
    rw [range_head_split _ _ hlt]
    simp [List.countP_cons, hi2]

theorem wheel_rollback_iff (K : Nat) (s0 : wheel_state_t)
    (ihd : ∀ i, s0.ci.in_wheel i = true ↔
      (wheel_pending s0).countP (fun p => decide (p % K = i)) = 1)
    (i : Nat) :
    ((if (wheel_pending s0).any (fun p => decide (p % K = i)) then false
        else s0.ci.in_wheel i) = true ↔
      (List.range' s0.pend_next (s0.pend_next - s0.pend_next)).countP
        (fun p => decide (p % K = i)) = 1) := by
  have hnil : s0.pend_next - s0.pend_next = 0 := by omega
  rw [hnil]
  by_cases hany : (wheel_pending s0).any (fun p => decide (p % K = i)) = true
  · simp [hany]
  · have h0 : (wheel_pending s0).countP (fun p => decide (p % K = i)) = 0 := by
      rw [List.countP_eq_zero]
      intro p hp hpp
      exact hany (List.any_eq_true.mpr ⟨p, hp, hpp⟩)
    have hd := ihd i
    simp [hany, hd, h0]

theorem wheel_reachable_inv (K : Nat) (s : wheel_state_t)
    (h : wheel_reachable K s) :
    s.pend_base ≤ s.pend_next ∧
    s.pend_next - s.pend_base ≤ K ∧
    s.ci.wheel_count = s.pend_next - s.pend_base ∧
    (∀ i, (s.ci.in_wheel i = true ↔
      (wheel_pending s).countP (fun p => decide (p % K = i)) = 1)) := by
  induction h with
  | init =>
      refine ⟨Nat.le_refl _, by simp [init_wheel_state],
        by simp [init_wheel_state], ?_⟩
      intro i
      simp [init_wheel_state, wheel_pending]
  | step hr hstep ih =>
      obtain ⟨iha, ihb, ihc, ihd⟩ := ih
      cases hstep with
      | insert_req hb0 hlt =>
          rename_i s0
          refine ⟨by dsimp only; omega, by dsimp only; omega, ?_, ?_⟩
          · dsimp only [enqueue_wheel_req_st]
            omega
          · intro i
            dsimp only [enqueue_wheel_req_st, wheel_pending]
            exact wheel_insert_iff K s0 iha hlt ihd i
      | insert_rfr hb0 hlt =>
          rename_i s0
          refine ⟨by dsimp only; omega, by dsimp only; omega, ?_, ?_⟩
          · dsimp only [enqueue_wheel_rfr_st]
            omega
          · intro i
            dsimp only [enqueue_wheel_rfr_st, wheel_pending]
            exact wheel_insert_iff K s0 iha hlt ihd i
      | transmit hlt =>
          rename_i s0
          refine ⟨by dsimp only; omega, by dsimp only; omega, ?_, ?_⟩
          · dsimp only
            omega
          · intro i
            dsimp only [wheel_pending]
            exact wheel_transmit_iff K s0 hlt ihb ihd i
      | rollback =>
          rename_i s0
          refine ⟨by dsimp only; omega, by dsimp only; omega, ?_, ?_⟩
          · dsimp only
            omega
          · intro i
            dsimp only [wheel_pending]
            exact wheel_rollback_iff K s0 ihd i

/-- C7: both wheel-enqueue helpers set the sslot's
`in_wheel[pkt_num mod K]` bit and increment `wheel_count` by exactly one;
and in every reachable sslot wheel state, `in_wheel[i]` is true iff
exactly one pending wheel entry of the sslot has packet number congruent
to i mod K. -/
theorem wheel_in_wheel_invariant (K : Nat) :
    (∀ (ci : wheel_client_info) (pkt_num : Nat),
      (enqueue_wheel_req_st K ci pkt_num).in_wheel (pkt_num % K) = true ∧
      (enqueue_wheel_req_st K ci pkt_num).wheel_count =
        ci.wheel_count + 1 ∧
      (enqueue_wheel_rfr_st K ci pkt_num).in_wheel (pkt_num % K) = true ∧
      (enqueue_wheel_rfr_st K ci pkt_num).wheel_count =
        ci.wheel_count + 1) ∧
    (∀ s, wheel_reachable K s → ∀ i,
      (s.ci.in_wheel i = true ↔
        (wheel_pending s).countP (fun p => decide (p % K = i)) = 1)) := by
  constructor
  · intro ci pkt_num
    refine ⟨?_, rfl, ?_, rfl⟩ <;>
      simp [enqueue_wheel_req_st, enqueue_wheel_rfr_st]
  · intro s hs i
    exact (wheel_reachable_inv K s hs).2.2.2 i

/-- Witness for C7 at K = 8: the enqueue helper sets the bit of packet 3,
and at the fresh sslot no bit is set and no entry is pending. -/
theorem wheel_in_wheel_invariant_witness :
    (enqueue_wheel_req_st 8 init_wheel_state.ci 3).in_wheel (3 % 8) =
      true ∧
    (init_wheel_state.ci.in_wheel 0 = true ↔
      (wheel_pending init_wheel_state).countP
        (fun p => decide (p % 8 = 0)) = 1) := by
  have h := wheel_in_wheel_invariant 8
  exact ⟨(h.1 init_wheel_state.ci 3).1,
    h.2 init_wheel_state wheel_reachable.init 0⟩

end ERpc
